import Mathlib

/-!
Verification model of `src/metaapi.js`: a Node.js bridge that ingests
newline-delimited JSON market-data messages over a TCP socket into an
in-memory store (`dataStore`) and serves that store over REST routes.

The embedding translates the repository's own code.  External library
behaviour that the code calls into is modelled as follows:
* `JSON.parse` (Node stdlib) is an abstract parameter
  `parse : List Char → Option Json` — `none` models a thrown parse error;
* `new Date().toISOString()` is an abstract timestamp parameter `now`;
* socket chunks are byte sequences; the per-chunk `data.toString()` at
  line 38 is modelled by `utf8DecodeChunk`, the WHATWG UTF-8 decoder that
  `Buffer.toString('utf8')` implements, replacement characters included,
  applied to each chunk standalone.
-/

/-- The values `JSON.parse` can produce.  JSON numbers are modelled as
integers: every numeric payload field is opaque to the bridge (it is only
stored and echoed back), so the numeric representation never influences
control flow except through JS falsiness (`0`) and string coercion. -/
inductive Json where
  | null
  | bool (b : Bool)
  | num (n : Int)
  | str (s : String)
  | arr (xs : List Json)
  | obj (fields : List (String × Json))

/-- First-match association lookup, modelling JS property access
`o[k]` (`none` models `undefined`).  JS objects hold at most one property
per key, so first-match and last-match agree on every value
`JSON.parse` can return. -/
def aGet {α : Type} : List (String × α) → String → Option α
  | [], _ => none
  | (k', v) :: rest, k => if k' = k then some v else aGet rest k

/-- Association update, modelling JS property assignment `o[k] = v`:
overwrite the existing entry in place, or append a new one. -/
def aSet {α : Type} : List (String × α) → String → α → List (String × α)
  | [], k, v => [(k, v)]
  | (k', v') :: rest, k, v =>
      if k' = k then (k, v) :: rest else (k', v') :: aSet rest k v

/-- JS property read `data.k`: `undefined` (`none`) on every non-object. -/
def getF : Json → String → Option Json
  | .obj fs, k => aGet fs k
  | _, _ => none

/-- JS property assignment `data.k = v`; assignment to a primitive is a
silent no-op in non-strict code, and the `null` case is unreachable here
(the handler has already thrown on `data.type`). -/
def setF : Json → String → Json → Json
  | .obj fs, k, v => .obj (aSet fs k v)
  | j, _, _ => j

/-- JS falsiness of a parsed value (for checks like `!data.symbol`). -/
def falsy : Json → Bool
  | .null => true
  | .bool b => !b
  | .num n => n == 0
  | .str s => s == ""
  | _ => false

/-- `!!o[k]`: a field is truthy when present and not falsy. -/
def truthyOpt : Option Json → Bool
  | none => false
  | some v => !(falsy v)

/-- One element of a JS array-to-string join: `null` renders empty,
nested arrays (which this producer never sends as keys) are elided. -/
def jsAtomStr : Json → String
  | .null => ""
  | .bool b => cond b "true" "false"
  | .num n => toString n
  | .str s => s
  | .arr _ => ""
  | .obj _ => "[object Object]"

/-- JS string coercion `String(v)`, used when a value becomes an object
property key (`dataStore.livePrices[data.symbol] = ...`). -/
def jsToStr : Json → String
  | .null => "null"
  | .bool b => cond b "true" "false"
  | .num n => toString n
  | .str s => s
  | .arr xs => String.intercalate "," (xs.map jsAtomStr)
  | .obj _ => "[object Object]"

/-- Property key produced by using a (possibly missing) field value as an
object index; JS renders `undefined` as the key `"undefined"`. -/
def jsKeyOf : Option Json → String
  | some v => jsToStr v
  | none => "undefined"

/-- ASCII case map of `String.prototype.toUpperCase` (the symbols this
bridge handles are ASCII identifiers such as `EURUSD`, `M1`). -/
def upChar (c : Char) : Char :=
  if 'a' ≤ c ∧ c ≤ 'z' then Char.ofNat (c.toNat - 32) else c

/-- `s.toUpperCase()`. -/
def jsUpper (s : String) : String :=
  String.mk (s.data.map upChar)

/-- Whitespace recognised by `String.prototype.trim`. -/
def isWs (c : Char) : Bool :=
  c == ' ' || c == '\t' || c == '\n' || c == '\r' ||
  c == Char.ofNat 11 || c == Char.ofNat 12 || c == Char.ofNat 160 ||
  c == Char.ofNat 0xFEFF

/-- `line.trim()` over the decoded characters of one frame. -/
def jsTrim (l : List Char) : List Char :=
  ((l.dropWhile isWs).reverse.dropWhile isWs).reverse

/-- `dataStore` (metaapi.js line 19): latest price per symbol, candle
series per symbol per timeframe, and the symbol catalog.  An inner
`ohlcvData` entry holds `Option Json` because line 99 stores `data.candles`
verbatim — when that field is absent the entry becomes JS `undefined`,
modelled as `none`. -/
structure DataStore where
  livePrices : List (String × Json)
  ohlcvData : List (String × List (String × Option Json))
  symbolList : List Json

/-- The store at process start. -/
def emptyStore : DataStore := ⟨[], [], []⟩

/-- Console output events of the ingestion path, by source line. -/
inductive LogEvent where
  | dataError                 -- line 51: catch in the data handler
  | missingSymbol             -- line 73
  | missingSymbolOrTimeframe  -- line 83
  | receivedCandles           -- line 100
  | receivedSymbols           -- line 107
  | unknownType               -- line 112

/-- Result of one `processIncomingData` call: the store afterwards, the
console events it produced, and whether it threw (to be caught by the
caller's try/catch). -/
structure ProcOut where
  store : DataStore
  log : List LogEvent
  threw : Bool

/-- `processIncomingData` (metaapi.js lines 66-114), translated branch by
branch.  `data.type` on `null` throws a TypeError.  In the `ohlcv` branch,
lines 87-93 create missing containers, line 99 then stores `data.candles`
verbatim (overwriting the `[]` just created, and set on the message object
at line 96 — `receivedAt` therefore never reaches the store for candles),
and line 100 reads `data.candles.length`, which throws when `candles` is
`undefined` or `null`. -/
def processIncomingData (now : String) (data : Json) (st : DataStore) : ProcOut :=
  match data with
  | .null => ⟨st, [], true⟩
  | _ =>
    match getF data "type" with
    | some (.str "live_price") =>
        if truthyOpt (getF data "symbol") then
          let stamped := setF data "receivedAt" (.str now)
          let lp := aSet st.livePrices (jsKeyOf (getF data "symbol")) stamped
          ⟨{ st with livePrices := lp }, [], false⟩
        else ⟨st, [.missingSymbol], false⟩
    | some (.str "ohlcv") =>
        if truthyOpt (getF data "symbol") && truthyOpt (getF data "timeframe") then
          let sk := jsKeyOf (getF data "symbol")
          let tk := jsKeyOf (getF data "timeframe")
          let inner := (aGet st.ohlcvData sk).getD []
          let od := aSet st.ohlcvData sk (aSet inner tk (getF data "candles"))
          let st' := { st with ohlcvData := od }
          match getF data "candles" with
          | none => ⟨st', [], true⟩
          | some .null => ⟨st', [], true⟩
          | some _ => ⟨st', [.receivedCandles], false⟩
        else ⟨st, [.missingSymbolOrTimeframe], false⟩
    | some (.str "symbol_list") =>
        match getF data "symbols" with
        | some (.arr xs) => ⟨{ st with symbolList := xs }, [.receivedSymbols], false⟩
        | _ => ⟨st, [], false⟩
    | _ => ⟨st, [.unknownType], false⟩

/-- The body of the per-message loop (metaapi.js lines 44-53): skip lines
that trim to empty, otherwise parse and process, with the catch turning
either a parse error or a throw from `processIncomingData` into a logged
`dataError` while the connection continues. -/
def processLine (parse : List Char → Option Json) (now : String)
    (st : DataStore) (line : List Char) : DataStore × List LogEvent :=
  if jsTrim line = [] then (st, [])
  else
    match parse line with
    | none => (st, [.dataError])
    | some data =>
        let o := processIncomingData now data st
        (o.store, o.log ++ (if o.threw then [.dataError] else []))

/-- Running the message loop over a sequence of decoded lines on one
connection, threading the store and collecting console events. -/
def runLines (parse : List Char → Option Json) (now : String)
    (st : DataStore) : List (List Char) → DataStore × List LogEvent
  | [] => (st, [])
  | l :: ls =>
      let r := processLine parse now st l
      let rest := runLines parse now r.1 ls
      (rest.1, r.2 ++ rest.2)

/-- `buffer.split('\n')` (metaapi.js line 41): the pieces of the buffer
between newline delimiters; always non-empty, like the JS result. -/
def splitNl : List Char → List (List Char)
  | [] => [[]]
  | c :: rest =>
      if c = '\n' then [] :: splitNl rest
      else
        match splitNl rest with
        | [] => [[c]]
        | p :: ps => (c :: p) :: ps

/-- `messages.pop()` (line 42): all pieces but the last, and the last
piece.  The `[]` case is unreachable since `splitNl` never returns it. -/
def popLast : List (List Char) → List (List Char) × List Char
  | [] => ([], [])
  | [p] => ([], p)
  | p :: ps => let r := popLast ps; (p :: r.1, r.2)

/-- The character level of one `data` event (lines 39-42), AFTER the
chunk has been decoded by `data.toString()`: append the decoded text to
the residual buffer, split on newline, emit every piece but the last,
keep the last piece as the new residual buffer.  The full byte-level
event, decode included, is `feedBytes` below. -/
def feed (buf chunk : List Char) : List (List Char) × List Char :=
  popLast (splitNl (buf ++ chunk))

/-- Feeding a sequence of already-decoded chunks in arrival order: the
concatenation of all emitted complete messages, and the final residual
buffer.  The byte-level version is `feedChunksBytes` below. -/
def feedChunks : List Char → List (List Char) → List (List Char) × List Char
  | buf, [] => ([], buf)
  | buf, ch :: rest =>
      let fd := feed buf ch
      let r := feedChunks fd.2 rest
      (fd.1 ++ r.1, r.2)

/-- Character-level reference semantics of the decoder: on `'\n'` close the
current frame, otherwise extend it. -/
def feedChar (s : List (List Char) × List Char) (c : Char) :
    List (List Char) × List Char :=
  if c = '\n' then (s.1 ++ [s.2], []) else (s.1, s.2 ++ [c])

/-- A character sequence free of the frame delimiter. -/
def noNl (l : List Char) : Prop := ∀ c ∈ l, c ≠ '\n'

/-- Unicode replacement character U+FFFD, emitted by the decoder for
malformed or truncated byte sequences. -/
def repl : Char := Char.ofNat 0xFFFD

/-- State of the WHATWG UTF-8 decoder: continuation bytes still needed,
accumulated code-point bits, the admissible range for the next byte, and
the characters decoded so far. -/
structure Utf8State where
  need : Nat
  acc : Nat
  lo : Nat
  hi : Nat
  out : List Char

/-- The ground state of the decoder (no sequence in progress). -/
def utf8Ground (out : List Char) : Utf8State := ⟨0, 0, 0x80, 0xBF, out⟩

/-- Classify a byte read in the ground state (WHATWG UTF-8 decoder, the
algorithm behind Node's `Buffer.toString('utf8')`): ASCII is emitted,
C0/C1/F5..FF and stray continuation bytes are errors, other leads open a
2-, 3- or 4-byte sequence with the standard boundaries for the following
byte (E0/ED/F0/F4 exclude overlong forms, surrogates and code points above
U+10FFFF). -/
def utf8Dispatch (out : List Char) (b : Nat) : Utf8State :=
  if b < 0x80 then ⟨0, 0, 0x80, 0xBF, out ++ [Char.ofNat b]⟩
  else if b < 0xC2 then ⟨0, 0, 0x80, 0xBF, out ++ [repl]⟩
  else if b < 0xE0 then ⟨1, b - 0xC0, 0x80, 0xBF, out⟩
  else if b = 0xE0 then ⟨2, 0, 0xA0, 0xBF, out⟩
  else if b = 0xED then ⟨2, 0xD, 0x80, 0x9F, out⟩
  else if b < 0xF0 then ⟨2, b - 0xE0, 0x80, 0xBF, out⟩
  else if b = 0xF0 then ⟨3, 0, 0x90, 0xBF, out⟩
  else if b = 0xF4 then ⟨3, 4, 0x80, 0x8F, out⟩
  else if b < 0xF5 then ⟨3, b - 0xF0, 0x80, 0xBF, out⟩
  else ⟨0, 0, 0x80, 0xBF, out ++ [repl]⟩

/-- One byte of the WHATWG UTF-8 decoder: an in-range continuation byte
extends (or completes) the open sequence; an out-of-range byte emits a
replacement and is reprocessed as a fresh lead. -/
def utf8Step (s : Utf8State) (b : Nat) : Utf8State :=
  if s.need = 0 then utf8Dispatch s.out b
  else if s.lo ≤ b ∧ b ≤ s.hi then
    let acc2 := s.acc * 64 + (b - 0x80)
    if s.need = 1 then ⟨0, 0, 0x80, 0xBF, s.out ++ [Char.ofNat acc2]⟩
    else ⟨s.need - 1, acc2, 0x80, 0xBF, s.out⟩
  else utf8Dispatch (s.out ++ [repl]) b

/-- `data.toString()` (metaapi.js line 38) on ONE chunk, as the data
handler calls it per event: decode the bytes of this chunk alone; an
incomplete sequence at the chunk edge becomes a single replacement
character. -/
def utf8DecodeChunk (bs : List Nat) : List Char :=
  let s := bs.foldl utf8Step (utf8Ground [])
  if s.need = 0 then s.out else s.out ++ [repl]

/-- The minimal UTF-8 encoding of one character, for describing the wire
bytes a well-formed producer sends. -/
def encodeChar (c : Char) : List Nat :=
  let n := c.toNat
  if n < 0x80 then [n]
  else if n < 0x800 then [0xC0 + n / 64, 0x80 + n % 64]
  else if n < 0x10000 then
    [0xE0 + n / 4096, 0x80 + n / 64 % 64, 0x80 + n % 64]
  else [0xF0 + n / 262144, 0x80 + n / 4096 % 64, 0x80 + n / 64 % 64,
    0x80 + n % 64]

/-- The UTF-8 encoding of a character sequence. -/
def utf8Encode (s : List Char) : List Nat := (s.map encodeChar).flatten

/-- One socket `data` event at byte level (metaapi.js lines 36-42):
`buffer += data.toString()` decodes THIS chunk alone and appends the
result, then the split/pop loop runs. -/
def feedBytes (buf : List Char) (chunk : List Nat) :
    List (List Char) × List Char :=
  feed buf (utf8DecodeChunk chunk)

/-- Feeding a sequence of byte chunks in arrival order. -/
def feedChunksBytes : List Char → List (List Nat) → List (List Char) × List Char
  | buf, [] => ([], buf)
  | buf, ch :: rest =>
      let fd := feedBytes buf ch
      let r := feedChunksBytes fd.2 rest
      (fd.1 ++ r.1, r.2)

/-- Store-level read `dataStore.livePrices[symbol]` (spec: `getLivePrice`). -/
def getLivePrice (st : DataStore) (symbol : String) : Option Json :=
  aGet st.livePrices symbol

/-- The stored candle value for a symbol/timeframe key pair:
`dataStore.ohlcvData[symbol]` then `[timeframe]`; the inner `Option Json`
is the stored value itself (which can be the JS `undefined`). -/
def ohlcvEntry (st : DataStore) (sk tk : String) : Option (Option Json) :=
  (aGet st.ohlcvData sk).bind fun inner => aGet inner tk

/-- Body of `GET /api/price/:symbol` (lines 140-149) after the uppercase
normalization: `none` models the 404 response. -/
def getPriceRaw (st : DataStore) (k : String) : Option Json :=
  match aGet st.livePrices k with
  | some v => if falsy v then none else some v
  | none => none

/-- `GET /api/price/:symbol`: the route uppercases the requested symbol
before the lookup (line 141). -/
def getPrice (st : DataStore) (symbol : String) : Option Json :=
  getPriceRaw st (jsUpper symbol)

/-- `arr.slice(start)` for one argument, JS index clamping included. -/
def sliceFrom {α : Type} (xs : List α) (start : Int) : List α :=
  let len : Int := xs.length
  let s : Int := if start < 0 then max (len + start) 0 else min start len
  xs.drop s.toNat

/-- `v.slice(-limit)` on the stored candle value: defined for arrays (and
strings), a thrown TypeError (`none`) otherwise. -/
def jsSlice (v : Json) (start : Int) : Option Json :=
  match v with
  | .arr xs => some (.arr (sliceFrom xs start))
  | .str s => some (.str (String.mk (sliceFrom s.data start)))
  | _ => none

/-- Outcome of `GET /api/ohlcv/:symbol/:timeframe`. -/
inductive CandlesRes where
  | notFound                -- 404 (line 167)
  | ok (candles : Json)     -- 200 with the sliced series
  | typeError               -- `.slice` threw on a non-sliceable stored value

/-- `parseInt(req.query.limit) || 100` (line 163): `none` models a missing
or non-numeric query value (`parseInt` gave NaN); `0` is falsy. -/
def effLimit : Option Int → Int
  | none => 100
  | some n => if n = 0 then 100 else n

/-- Body of `GET /api/ohlcv/:symbol/:timeframe` (lines 160-181) after the
uppercase normalization of the symbol: 404 when the symbol map or the
timeframe entry is missing or falsy, otherwise the tail slice
`series.slice(-limit)`. -/
def getCandlesRaw (st : DataStore) (sk tk : String) (limitQ : Option Int) :
    CandlesRes :=
  let limit := effLimit limitQ
  match aGet st.ohlcvData sk with
  | none => .notFound
  | some inner =>
      match aGet inner tk with
      | none => .notFound
      | some none => .notFound
      | some (some v) =>
          if falsy v then .notFound
          else
            match jsSlice v (-limit) with
            | some c => .ok c
            | none => .typeError

/-- `GET /api/ohlcv/:symbol/:timeframe`: the route uppercases the symbol
(line 161) and passes the timeframe through verbatim (line 162). -/
def getCandles (st : DataStore) (symbol timeframe : String)
    (limitQ : Option Int) : CandlesRes :=
  getCandlesRaw st (jsUpper symbol) timeframe limitQ

/-- Body of `GET /api/timeframes/:symbol` (lines 184-197) after the
uppercase normalization: `Object.keys` of the symbol's timeframe map. -/
def getTimeframesRaw (st : DataStore) (sk : String) : Option (List String) :=
  (aGet st.ohlcvData sk).map (fun inner => inner.map Prod.fst)

/-- `GET /api/timeframes/:symbol`: uppercases the symbol (line 185). -/
def getTimeframes (st : DataStore) (symbol : String) : Option (List String) :=
  getTimeframesRaw st (jsUpper symbol)

/-! ## Association-list lemmas -/

theorem aGet_aSet_self {α : Type} (l : List (String × α)) (k : String) (v : α) :
    aGet (aSet l k v) k = some v := by
  induction l with
  | nil => simp [aGet, aSet]
  | cons p rest ih =>
      obtain ⟨k', v'⟩ := p
      by_cases h : k' = k
      · simp [aGet, aSet, h]
      · simp [aGet, aSet, h, ih]

theorem aGet_aSet_ne {α : Type} (l : List (String × α)) (k k' : String) (v : α)
    (h : k ≠ k') : aGet (aSet l k v) k' = aGet l k' := by
  induction l with
  | nil => simp [aGet, aSet, h]
  | cons p rest ih =>
      obtain ⟨k₀, v₀⟩ := p
      by_cases hk : k₀ = k
      · subst hk
        simp [aGet, aSet, h]
      · by_cases hk2 : k₀ = k'
        · simp [aGet, aSet, hk, hk2, Ne.symm h]
        · simp [aGet, aSet, hk, hk2, ih]

theorem getF_some_obj {j : Json} {k : String} {v : Json}
    (h : getF j k = some v) : ∃ fs, j = .obj fs := by
  cases j <;> first | exact ⟨_, rfl⟩ | simp [getF] at h

/-! ## Frame Decoder lemmas -/

theorem noNl_nil : noNl [] := by
  intro c hc
  cases hc

theorem splitNl_ne_nil (l : List Char) : splitNl l ≠ [] := by
  cases l with
  | nil => simp [splitNl]
  | cons c rest =>
      simp only [splitNl]
      by_cases h : c = '\n'
      · simp [h]
      · simp only [if_neg h]
        cases hs : splitNl rest <;> simp

theorem splitNl_of_noNl {b : List Char} (h : noNl b) : splitNl b = [b] := by
  induction b with
  | nil => rfl
  | cons c rest ih =>
      have hc : c ≠ '\n' := h c (by simp)
      have hr : noNl rest := fun x hx => h x (by simp [hx])
      simp [splitNl, if_neg hc, ih hr]

theorem splitNl_append_noNl : ∀ (b : List Char), noNl b →
    ∀ (l p : List Char) (ps : List (List Char)),
      splitNl l = p :: ps → splitNl (b ++ l) = (b ++ p) :: ps := by
  intro b
  induction b with
  | nil =>
      intro _ l p ps hs
      simpa using hs
  | cons c rest ih =>
      intro h l p ps hs
      have hc : c ≠ '\n' := h c (by simp)
      have hr : noNl rest := fun x hx => h x (by simp [hx])
      have h2 := ih hr l p ps hs
      simp [splitNl, if_neg hc, h2]

theorem popLast_cons_cons (p q : List Char) (qs : List (List Char)) :
    popLast (p :: q :: qs) = (p :: (popLast (q :: qs)).1, (popLast (q :: qs)).2) := rfl

theorem feed_nil {buf : List Char} (h : noNl buf) : feed buf [] = ([], buf) := by
  simp [feed, splitNl_of_noNl h, popLast]

theorem feed_newline {buf : List Char} (h : noNl buf) (rest : List Char) :
    feed buf ('\n' :: rest) = (buf :: (feed [] rest).1, (feed [] rest).2) := by
  obtain ⟨p, ps, hs⟩ : ∃ p ps, splitNl rest = p :: ps := by
    cases hsp : splitNl rest with
    | nil => exact absurd hsp (splitNl_ne_nil rest)
    | cons p ps => exact ⟨p, ps, rfl⟩
  have h1 : splitNl ('\n' :: rest) = [] :: p :: ps := by simp [splitNl, hs]
  have h2 := splitNl_append_noNl buf h ('\n' :: rest) [] (p :: ps) h1
  simp only [feed, h2, List.nil_append, hs, List.append_nil]
  rw [popLast_cons_cons]

theorem feed_shift (buf : List Char) (c : Char) (rest : List Char) :
    feed buf (c :: rest) = feed (buf ++ [c]) rest := by
  have h : (buf ++ [c]) ++ rest = buf ++ c :: rest := by simp
  unfold feed
  rw [h]

theorem feedChar_newline (s : List (List Char) × List Char) :
    feedChar s '\n' = (s.1 ++ [s.2], []) := by
  simp [feedChar]

theorem feedChar_other {c : Char} (hc : c ≠ '\n')
    (s : List (List Char) × List Char) : feedChar s c = (s.1, s.2 ++ [c]) := by
  simp [feedChar, hc]

theorem foldl_feedChar_eq (chunk : List Char) :
    ∀ (em : List (List Char)) (buf : List Char), noNl buf →
      List.foldl feedChar (em, buf) chunk =
        (em ++ (feed buf chunk).1, (feed buf chunk).2) := by
  induction chunk with
  | nil =>
      intro em buf h
      simp [feed_nil h]
  | cons c rest ih =>
      intro em buf h
      by_cases hc : c = '\n'
      · subst hc
        rw [List.foldl_cons, feedChar_newline]
        rw [ih (em ++ [buf]) [] noNl_nil, feed_newline h rest]
        simp
      · have hb : noNl (buf ++ [c]) := by
          intro x hx
          rcases List.mem_append.mp hx with h1 | h2
          · exact h x h1
          · simp at h2
            subst h2
            exact hc
        rw [List.foldl_cons, feedChar_other hc]
        rw [ih em (buf ++ [c]) hb, feed_shift]

theorem feed_eq_foldl {buf : List Char} (h : noNl buf) (chunk : List Char) :
    feed buf chunk = List.foldl feedChar ([], buf) chunk := by
  rw [foldl_feedChar_eq chunk [] buf h]
  simp

theorem noNl_foldl_snd (chunk : List Char) :
    ∀ s : List (List Char) × List Char, noNl s.2 →
      noNl (List.foldl feedChar s chunk).2 := by
  induction chunk with
  | nil =>
      intro s h
      simpa using h
  | cons c rest ih =>
      intro s h
      rw [List.foldl_cons]
      apply ih
      by_cases hc : c = '\n'
      · subst hc
        rw [feedChar_newline]
        exact noNl_nil
      · rw [feedChar_other hc]
        intro x hx
        rcases List.mem_append.mp hx with h1 | h2
        · exact h x h1
        · simp at h2
          subst h2
          exact hc

theorem noNl_feed_snd {buf : List Char} (h : noNl buf) (chunk : List Char) :
    noNl (feed buf chunk).2 := by
  rw [feed_eq_foldl h chunk]
  exact noNl_foldl_snd chunk ([], buf) h

theorem foldl_feedChar_shift (l : List Char) :
    ∀ (em : List (List Char)) (buf : List Char),
      List.foldl feedChar (em, buf) l =
        (em ++ (List.foldl feedChar ([], buf) l).1,
          (List.foldl feedChar ([], buf) l).2) := by
  induction l with
  | nil =>
      intro em buf
      simp
  | cons c rest ih =>
      intro em buf
      by_cases hc : c = '\n'
      · subst hc
        rw [List.foldl_cons, List.foldl_cons, feedChar_newline, feedChar_newline]
        rw [ih (em ++ [buf]) [], ih ([] ++ [buf]) []]
        simp
      · rw [List.foldl_cons, List.foldl_cons, feedChar_other hc, feedChar_other hc]
        rw [ih em (buf ++ [c])]

theorem feedChunks_eq_foldl : ∀ (chunks : List (List Char)) (buf : List Char),
    noNl buf → feedChunks buf chunks = List.foldl feedChar ([], buf) chunks.flatten := by
  intro chunks
  induction chunks with
  | nil =>
      intro buf h
      simp [feedChunks]
  | cons ch rest ih =>
      intro buf h
      have h2 : noNl (feed buf ch).2 := noNl_feed_snd h ch
      have hr := ih (feed buf ch).2 h2
      simp only [feedChunks]
      rw [hr, List.flatten_cons, List.foldl_append, ← feed_eq_foldl h ch]
      rw [show feed buf ch = ((feed buf ch).1, (feed buf ch).2) from rfl]
      rw [foldl_feedChar_shift (rest.flatten) (feed buf ch).1 (feed buf ch).2]

/-- Character-level invariance of the split/pop loop: AFTER the per-chunk
decode, the loop's output depends only on the concatenation of the decoded
text, not on where it was cut. -/
theorem feedChunks_join_invariant (chunks₁ chunks₂ : List (List Char))
    (h : chunks₁.flatten = chunks₂.flatten) :
    feedChunks [] chunks₁ = feedChunks [] chunks₂ := by
  rw [feedChunks_eq_foldl chunks₁ [] noNl_nil,
    feedChunks_eq_foldl chunks₂ [] noNl_nil, h]

/-! ## Per-chunk UTF-8 decoding -/

theorem utf8Step_ground (out : List Char) (b : Nat) :
    utf8Step (utf8Ground out) b = utf8Dispatch out b := by
  simp [utf8Step, utf8Ground]

theorem utf8Dispatch_ascii {b : Nat} (h : b < 0x80) (out : List Char) :
    utf8Dispatch out b = utf8Ground (out ++ [Char.ofNat b]) := by
  simp [utf8Dispatch, utf8Ground, h]

theorem utf8Dispatch_two {b : Nat} (h1 : 0xC2 ≤ b) (h2 : b < 0xE0)
    (out : List Char) (a : Nat) (ha : b - 0xC0 = a) :
    utf8Dispatch out b = ⟨1, a, 0x80, 0xBF, out⟩ := by
  subst ha
  have hb1 : ¬ b < 0x80 := by omega
  have hb2 : ¬ b < 0xC2 := by omega
  simp [utf8Dispatch, hb1, hb2, h2]

theorem utf8Dispatch_E0 (out : List Char) :
    utf8Dispatch out 0xE0 = ⟨2, 0, 0xA0, 0xBF, out⟩ := by
  simp [utf8Dispatch]

theorem utf8Dispatch_ED (out : List Char) :
    utf8Dispatch out 0xED = ⟨2, 0xD, 0x80, 0x9F, out⟩ := by
  simp [utf8Dispatch]

theorem utf8Dispatch_threeGen {b : Nat} (h1 : 0xE1 ≤ b) (h2 : b < 0xF0)
    (h3 : b ≠ 0xED) (out : List Char) (a : Nat) (ha : b - 0xE0 = a) :
    utf8Dispatch out b = ⟨2, a, 0x80, 0xBF, out⟩ := by
  subst ha
  have hb1 : ¬ b < 0x80 := by omega
  have hb2 : ¬ b < 0xC2 := by omega
  have hb3 : ¬ b < 0xE0 := by omega
  have hb4 : ¬ b = 0xE0 := by omega
  simp [utf8Dispatch, hb1, hb2, hb3, hb4, h3, h2]

theorem utf8Dispatch_F0 (out : List Char) :
    utf8Dispatch out 0xF0 = ⟨3, 0, 0x90, 0xBF, out⟩ := by
  simp [utf8Dispatch]

theorem utf8Dispatch_F4 (out : List Char) :
    utf8Dispatch out 0xF4 = ⟨3, 4, 0x80, 0x8F, out⟩ := by
  simp [utf8Dispatch]

theorem utf8Dispatch_fourGen {b : Nat} (h1 : 0xF1 ≤ b) (h2 : b ≤ 0xF3)
    (out : List Char) (a : Nat) (ha : b - 0xF0 = a) :
    utf8Dispatch out b = ⟨3, a, 0x80, 0xBF, out⟩ := by
  subst ha
  have hb1 : ¬ b < 0x80 := by omega
  have hb2 : ¬ b < 0xC2 := by omega
  have hb3 : ¬ b < 0xE0 := by omega
  have hb4 : ¬ b = 0xE0 := by omega
  have hb5 : ¬ b = 0xED := by omega
  have hb6 : ¬ b < 0xF0 := by omega
  have hb7 : ¬ b = 0xF0 := by omega
  have hb8 : ¬ b = 0xF4 := by omega
  have hb9 : b < 0xF5 := by omega
  simp [utf8Dispatch, hb1, hb2, hb3, hb4, hb5, hb6, hb7, hb8, hb9]

theorem utf8Step_contStep (need acc lo hi : Nat) (out : List Char) (b : Nat)
    (h0 : need ≠ 0) (h3 : need ≠ 1) (h1 : lo ≤ b) (h2 : b ≤ hi)
    (need2 acc2 : Nat) (hneed : need - 1 = need2)
    (hacc : acc * 64 + (b - 0x80) = acc2) :
    utf8Step ⟨need, acc, lo, hi, out⟩ b = ⟨need2, acc2, 0x80, 0xBF, out⟩ := by
  subst hneed hacc
  simp only [utf8Step]
  rw [if_neg h0, if_pos ⟨h1, h2⟩, if_neg h3]

theorem utf8Step_contLast (acc lo hi : Nat) (out : List Char) (b : Nat)
    (h1 : lo ≤ b) (h2 : b ≤ hi) (n : Nat)
    (hn : acc * 64 + (b - 0x80) = n) :
    utf8Step ⟨1, acc, lo, hi, out⟩ b =
      utf8Ground (out ++ [Char.ofNat n]) := by
  subst hn
  simp only [utf8Step, utf8Ground]
  rw [if_neg (by omega), if_pos ⟨h1, h2⟩]
  simp

/-- Decoding is inverse to encoding, one character at a time: from the
ground state, the encoded bytes of `c` are consumed back to the ground
state with `c` appended to the output. -/
theorem utf8Step_encodeChar (c : Char) (out : List Char) (bs : List Nat) :
    List.foldl utf8Step (utf8Ground out) (encodeChar c ++ bs) =
      List.foldl utf8Step (utf8Ground (out ++ [c])) bs := by
  have hofnat : Char.ofNat c.toNat = c := Char.ofNat_toNat c
  have hval : c.toNat < 0xD800 ∨ (0xDFFF < c.toNat ∧ c.toNat < 0x110000) :=
    c.valid
  by_cases h1 : c.toNat < 0x80
  · have he : encodeChar c = [c.toNat] := by simp [encodeChar, h1]
    rw [he]
    simp only [List.singleton_append, List.foldl_cons]
    rw [utf8Step_ground, utf8Dispatch_ascii h1, hofnat]
  · by_cases h2 : c.toNat < 0x800
    · have he : encodeChar c = [0xC0 + c.toNat / 64, 0x80 + c.toNat % 64] := by
        simp [encodeChar, h1, h2]
      rw [he]
      simp only [List.cons_append, List.nil_append, List.foldl_cons]
      rw [utf8Step_ground,
        utf8Dispatch_two (by omega) (by omega) out (c.toNat / 64) (by omega),
        utf8Step_contLast (c.toNat / 64) 0x80 0xBF out (0x80 + c.toNat % 64)
          (by omega) (by omega) c.toNat (by omega),
        hofnat]
    · by_cases h3 : c.toNat < 0x10000
      · have he : encodeChar c =
            [0xE0 + c.toNat / 4096, 0x80 + c.toNat / 64 % 64,
              0x80 + c.toNat % 64] := by
          simp [encodeChar, h1, h2, h3]
        rw [he]
        simp only [List.cons_append, List.nil_append, List.foldl_cons]
        rw [utf8Step_ground]
        by_cases hE0 : c.toNat / 4096 = 0
        · rw [show (0xE0 + c.toNat / 4096) = 0xE0 from by omega,
            utf8Dispatch_E0,
            utf8Step_contStep 2 0 0xA0 0xBF out (0x80 + c.toNat / 64 % 64)
              (by omega) (by omega) (by omega) (by omega)
              1 (c.toNat / 64) (by omega) (by omega),
            utf8Step_contLast (c.toNat / 64) 0x80 0xBF out
              (0x80 + c.toNat % 64) (by omega) (by omega) c.toNat (by omega),
            hofnat]
        · by_cases hED : c.toNat / 4096 = 0xD
          · have hsurr : c.toNat < 0xD800 := by omega
            rw [show (0xE0 + c.toNat / 4096) = 0xED from by omega,
              utf8Dispatch_ED,
              utf8Step_contStep 2 0xD 0x80 0x9F out (0x80 + c.toNat / 64 % 64)
                (by omega) (by omega) (by omega) (by omega)
                1 (c.toNat / 64) (by omega) (by omega),
              utf8Step_contLast (c.toNat / 64) 0x80 0xBF out
                (0x80 + c.toNat % 64) (by omega) (by omega) c.toNat (by omega),
              hofnat]
          · rw [utf8Dispatch_threeGen (b := 0xE0 + c.toNat / 4096) (by omega)
                (by omega) (by omega) out (c.toNat / 4096) (by omega),
              utf8Step_contStep 2 (c.toNat / 4096) 0x80 0xBF out
                (0x80 + c.toNat / 64 % 64) (by omega) (by omega) (by omega)
                (by omega) 1 (c.toNat / 64) (by omega) (by omega),
              utf8Step_contLast (c.toNat / 64) 0x80 0xBF out
                (0x80 + c.toNat % 64) (by omega) (by omega) c.toNat (by omega),
              hofnat]
      · have h4 : c.toNat < 0x110000 := by omega
        have he : encodeChar c =
            [0xF0 + c.toNat / 262144, 0x80 + c.toNat / 4096 % 64,
              0x80 + c.toNat / 64 % 64, 0x80 + c.toNat % 64] := by
          simp [encodeChar, h1, h2, h3]
        rw [he]
        simp only [List.cons_append, List.nil_append, List.foldl_cons]
        rw [utf8Step_ground]
        by_cases hF0 : c.toNat / 262144 = 0
        · rw [show (0xF0 + c.toNat / 262144) = 0xF0 from by omega,
            utf8Dispatch_F0,
            utf8Step_contStep 3 0 0x90 0xBF out (0x80 + c.toNat / 4096 % 64)
              (by omega) (by omega) (by omega) (by omega)
              2 (c.toNat / 4096) (by omega) (by omega),
            utf8Step_contStep 2 (c.toNat / 4096) 0x80 0xBF out
              (0x80 + c.toNat / 64 % 64) (by omega) (by omega) (by omega)
              (by omega) 1 (c.toNat / 64) (by omega) (by omega),
            utf8Step_contLast (c.toNat / 64) 0x80 0xBF out
              (0x80 + c.toNat % 64) (by omega) (by omega) c.toNat (by omega),
            hofnat]
        · by_cases hF4 : c.toNat / 262144 = 4
          · rw [show (0xF0 + c.toNat / 262144) = 0xF4 from by omega,
              utf8Dispatch_F4,
              utf8Step_contStep 3 4 0x80 0x8F out (0x80 + c.toNat / 4096 % 64)
                (by omega) (by omega) (by omega) (by omega)
                2 (c.toNat / 4096) (by omega) (by omega),
              utf8Step_contStep 2 (c.toNat / 4096) 0x80 0xBF out
                (0x80 + c.toNat / 64 % 64) (by omega) (by omega) (by omega)
                (by omega) 1 (c.toNat / 64) (by omega) (by omega),
              utf8Step_contLast (c.toNat / 64) 0x80 0xBF out
                (0x80 + c.toNat % 64) (by omega) (by omega) c.toNat (by omega),
              hofnat]
          · rw [utf8Dispatch_fourGen (b := 0xF0 + c.toNat / 262144) (by omega)
                (by omega) out (c.toNat / 262144) (by omega),
              utf8Step_contStep 3 (c.toNat / 262144) 0x80 0xBF out
                (0x80 + c.toNat / 4096 % 64) (by omega) (by omega) (by omega)
                (by omega) 2 (c.toNat / 4096) (by omega) (by omega),
              utf8Step_contStep 2 (c.toNat / 4096) 0x80 0xBF out
                (0x80 + c.toNat / 64 % 64) (by omega) (by omega) (by omega)
                (by omega) 1 (c.toNat / 64) (by omega) (by omega),
              utf8Step_contLast (c.toNat / 64) 0x80 0xBF out
                (0x80 + c.toNat % 64) (by omega) (by omega) c.toNat (by omega),
              hofnat]

/-- The per-chunk decoder is a left inverse of the UTF-8 encoder. -/
theorem utf8DecodeChunk_encode (s : List Char) :
    utf8DecodeChunk (utf8Encode s) = s := by
  have main : ∀ (t : List Char) (out : List Char),
      List.foldl utf8Step (utf8Ground out) (utf8Encode t) =
        utf8Ground (out ++ t) := by
    intro t
    induction t with
    | nil =>
        intro out
        simp [utf8Encode]
    | cons c cs ih =>
        intro out
        have hsplit : utf8Encode (c :: cs) = encodeChar c ++ utf8Encode cs := by
          simp [utf8Encode]
        rw [hsplit, utf8Step_encodeChar c out (utf8Encode cs), ih (out ++ [c])]
        simp
  simp only [utf8DecodeChunk]
  rw [main s []]
  simp [utf8Ground]

theorem feedBytes_encode (buf : List Char) (s : List Char) :
    feedBytes buf (utf8Encode s) = feed buf s := by
  unfold feedBytes
  rw [utf8DecodeChunk_encode]

theorem feedChunksBytes_encode : ∀ (A : List (List Char)) (buf : List Char),
    feedChunksBytes buf (A.map utf8Encode) = feedChunks buf A := by
  intro A
  induction A with
  | nil =>
      intro buf
      rfl
  | cons a as ih =>
      intro buf
      simp only [List.map_cons, feedChunksBytes, feedChunks, feedBytes_encode]
      rw [ih]

theorem utf8Encode_append (a b : List Char) :
    utf8Encode (a ++ b) = utf8Encode a ++ utf8Encode b := by
  simp [utf8Encode]

theorem utf8Encode_flatten (A : List (List Char)) :
    (A.map utf8Encode).flatten = utf8Encode A.flatten := by
  induction A with
  | nil => rfl
  | cons a as ih => simp [utf8Encode_append, ih]

theorem utf8Encode_injective {a b : List Char} (h : utf8Encode a = utf8Encode b) :
    a = b := by
  have h2 := congrArg utf8DecodeChunk h
  rwa [utf8DecodeChunk_encode, utf8DecodeChunk_encode] at h2

/-- Counterexample to C1 as stated: the byte stream `0xC3 0xA9 0x0A` (the
message `"é\n"`) split INSIDE the two-byte character yields a different
message sequence than single-chunk delivery — `data.toString()` decodes
each chunk standalone, so the two fragments become two replacement
characters instead of `é`. -/
theorem frameDecoder_byteSplit_counterexample :
    feedChunksBytes [] [[0xC3], [0xA9, 0x0A]] ≠
      feedChunksBytes [] [[0xC3, 0xA9, 0x0A]] ∧
      feedChunksBytes [] [[0xC3], [0xA9, 0x0A]] = ([[repl, repl]], []) ∧
      feedChunksBytes [] [[0xC3, 0xA9, 0x0A]] = ([[Char.ofNat 0xE9]], []) := by
  refine ⟨by decide, by decide, by decide⟩

/-- C1 corrected: for every sequence of newline-delimited messages and
every way of splitting its byte stream into chunks AT CHARACTER BOUNDARIES
(each chunk the UTF-8 encoding of a character sequence — splitting
mid-message, exactly on a message boundary, or one single chunk), feeding
the chunks in order to the Frame Decoder — each feed decoding its chunk,
appending it to the residual buffer, splitting on newline, emitting every
piece but the last in order and keeping the last (possibly empty) piece as
the new residual buffer — yields the identical ordered sequence of
complete messages and the identical residual: the output depends only on
the byte concatenation.  Splits inside a multi-byte character are
excluded: there the per-chunk `data.toString()` substitutes replacement
characters and the message sequence differs (see the counterexample). -/
theorem frameDecoder_charBoundary_invariant (chA chB : List (List Char))
    (h : (chA.map utf8Encode).flatten = (chB.map utf8Encode).flatten) :
    feedChunksBytes [] (chA.map utf8Encode) =
      feedChunksBytes [] (chB.map utf8Encode) := by
  rw [feedChunksBytes_encode, feedChunksBytes_encode]
  apply feedChunks_join_invariant
  apply utf8Encode_injective
  rw [← utf8Encode_flatten, ← utf8Encode_flatten, h]

/-- Witness for the corrected C1: the stream `"a\né\n"` delivered as two
chunks cut mid-message after the (multi-byte) `é`, versus three chunks cut
on message and character boundaries, decodes to the same two messages. -/
theorem frameDecoder_charBoundary_invariant_witness :
    (([['a', '\n', Char.ofNat 0xE9], ['\n']].map utf8Encode).flatten =
      ([['a'], ['\n'], [Char.ofNat 0xE9, '\n']].map utf8Encode).flatten) ∧
      feedChunksBytes []
          ([['a', '\n', Char.ofNat 0xE9], ['\n']].map utf8Encode) =
        feedChunksBytes []
          ([['a'], ['\n'], [Char.ofNat 0xE9, '\n']].map utf8Encode) :=
  ⟨by decide, frameDecoder_charBoundary_invariant _ _ (by decide)⟩

/-! ## Message-loop claims -/

/-- C2: a line whose body fails to parse (`JSON.parse` throws) leaves the
Market Data Store completely unchanged and does not terminate the
connection: the loop catches the error, and processing the remaining lines
of the connection from the same store — so a subsequent valid message is
still applied exactly as it would have been without the bad line. -/
theorem parseError_no_mutation (parse : List Char → Option Json) (now : String)
    (st : DataStore) (line : List Char) (rest : List (List Char))
    (h : parse line = none) :
    (processLine parse now st line).1 = st ∧
      (runLines parse now st (line :: rest)).1 = (runLines parse now st rest).1 := by
  have h1 : (processLine parse now st line).1 = st := by
    unfold processLine
    by_cases ht : jsTrim line = []
    · simp [ht]
    · simp [ht, h]
  refine ⟨h1, ?_⟩
  have h2 : (runLines parse now st (line :: rest)).1 =
      (runLines parse now (processLine parse now st line).1 rest).1 := rfl
  rw [h2, h1]

/-- Witness for C2: a non-JSON line before a line of input leaves the store
of the run unchanged. -/
theorem parseError_no_mutation_witness :
    ((fun _ => (none : Option Json)) ['x'] = none) ∧
      (processLine (fun _ => none) "t" emptyStore ['x']).1 = emptyStore ∧
      (runLines (fun _ => none) "t" emptyStore [['x'], ['y']]).1 =
        (runLines (fun _ => none) "t" emptyStore [['y']]).1 :=
  ⟨rfl, (parseError_no_mutation (fun _ => none) "t" emptyStore ['x'] [['y']] rfl).1,
    (parseError_no_mutation (fun _ => none) "t" emptyStore ['x'] [['y']] rfl).2⟩

/-- C10: a decoded line that is empty or whitespace-only (as produced by
consecutive newline bytes or a trailing newline) is silently skipped: the
loop result is independent of the parse function (the line is never
parsed), no console event is emitted, and the store is unchanged — the run
over the remaining lines is identical. -/
theorem whitespaceLine_skipped (parse : List Char → Option Json) (now : String)
    (st : DataStore) (line : List Char) (rest : List (List Char))
    (h : jsTrim line = []) :
    processLine parse now st line = (st, []) ∧
      runLines parse now st (line :: rest) = runLines parse now st rest := by
  have h1 : processLine parse now st line = (st, []) := by
    unfold processLine
    simp [h]
  refine ⟨h1, ?_⟩
  have h2 : runLines parse now st (line :: rest) =
      ((runLines parse now (processLine parse now st line).1 rest).1,
        (processLine parse now st line).2 ++
          (runLines parse now (processLine parse now st line).1 rest).2) := rfl
  rw [h2, h1]
  simp

/-- Witness for C10: the whitespace-only line `" "` is skipped even under a
parse function that would return a value, and the run equals the run
without it. -/
theorem whitespaceLine_skipped_witness :
    (jsTrim [' '] = []) ∧
      processLine (fun _ => some (.num 1)) "t" emptyStore [' '] = (emptyStore, []) ∧
      runLines (fun _ => some (.num 1)) "t" emptyStore [[' '], ['5']] =
        runLines (fun _ => some (.num 1)) "t" emptyStore [['5']] :=
  ⟨rfl,
    (whitespaceLine_skipped (fun _ => some (.num 1)) "t" emptyStore [' '] [['5']] rfl).1,
    (whitespaceLine_skipped (fun _ => some (.num 1)) "t" emptyStore [' '] [['5']] rfl).2⟩

/-! ## Store-update claims -/

/-- C4: applying two live-price updates for the same symbol S with
different payloads leaves `getLivePrice(S)` equal to the second payload
only (stamped with its own `receivedAt`): the stored value is computed from
the second message alone — the first payload and the intermediate store do
not appear in the result, so no fields are merged. -/
theorem livePrice_last_write_wins (st : DataStore) (p1 p2 : Json)
    (now1 now2 S : String)
    (_h1t : getF p1 "type" = some (.str "live_price"))
    (_h1s : getF p1 "symbol" = some (.str S))
    (h2t : getF p2 "type" = some (.str "live_price"))
    (h2s : getF p2 "symbol" = some (.str S))
    (hS : S ≠ "")
    (_hne : p1 ≠ p2) :
    getLivePrice
        (processIncomingData now2 p2
          (processIncomingData now1 p1 st).store).store S =
      some (setF p2 "receivedAt" (.str now2)) := by
  obtain ⟨fs, rfl⟩ := getF_some_obj h2t
  simp only [processIncomingData, h2t, h2s, truthyOpt, falsy, jsKeyOf, jsToStr,
    getLivePrice]
  simp [hS, aGet_aSet_self]

/-- C5: ingesting a candle batch for a (symbol, timeframe) stores exactly
the batch's candle sequence: the stored entry after the update equals the
new batch regardless of the prior store contents, so each ingestion fully
replaces the prior series — no append, no de-duplication, never a mix of
two ingestions. -/
theorem candleBatch_full_replacement (st : DataStore) (data : Json)
    (now : String) (cs : List Json)
    (ht : getF data "type" = some (.str "ohlcv"))
    (hs : truthyOpt (getF data "symbol") = true)
    (htf : truthyOpt (getF data "timeframe") = true)
    (hc : getF data "candles" = some (.arr cs)) :
    ohlcvEntry (processIncomingData now data st).store
        (jsKeyOf (getF data "symbol")) (jsKeyOf (getF data "timeframe")) =
      some (some (.arr cs)) := by
  obtain ⟨fs, rfl⟩ := getF_some_obj ht
  simp only [processIncomingData, ht, hs, htf, hc, Bool.and_self]
  simp [ohlcvEntry, aGet_aSet_self]

/-- C8: a `symbol_list` message whose `symbols` field is an array replaces
the stored catalog wholesale by that array (only `symbolList` changes, one
`receivedSymbols` console event, no throw); a `symbol_list` message whose
`symbols` field is not an array is silently ignored — the result is the
unchanged store with an empty console log and no throw. -/
theorem symbolList_wholesale_or_silent (st : DataStore) (data : Json)
    (now : String)
    (ht : getF data "type" = some (.str "symbol_list")) :
    (∀ xs, getF data "symbols" = some (.arr xs) →
        processIncomingData now data st =
          ⟨{ st with symbolList := xs }, [.receivedSymbols], false⟩) ∧
      ((∀ xs, getF data "symbols" ≠ some (.arr xs)) →
        processIncomingData now data st = ⟨st, [], false⟩) := by
  obtain ⟨fs, rfl⟩ := getF_some_obj ht
  constructor
  · intro xs hxs
    simp only [processIncomingData, ht, hxs]
  · intro hno
    simp only [processIncomingData, ht]

/-- Witness for C4: two live-price messages for `EURUSD` with different
payload fields; the stored record is the second message stamped with its
timestamp — the first message's `bid` field is gone. -/
theorem livePrice_last_write_wins_witness :
    ("EURUSD" : String) ≠ "" ∧
      (Json.obj [("type", .str "live_price"), ("symbol", .str "EURUSD"),
          ("bid", .num 11)] ≠
        Json.obj [("type", .str "live_price"), ("symbol", .str "EURUSD"),
          ("ask", .num 12)]) ∧
      getLivePrice
          (processIncomingData "t2"
            (.obj [("type", .str "live_price"), ("symbol", .str "EURUSD"),
              ("ask", .num 12)])
            (processIncomingData "t1"
              (.obj [("type", .str "live_price"), ("symbol", .str "EURUSD"),
                ("bid", .num 11)])
              emptyStore).store).store "EURUSD" =
        some (.obj [("type", .str "live_price"), ("symbol", .str "EURUSD"),
          ("ask", .num 12), ("receivedAt", .str "t2")]) := by
  refine ⟨by decide, by simp, ?_⟩
  exact livePrice_last_write_wins emptyStore
    (.obj [("type", .str "live_price"), ("symbol", .str "EURUSD"),
      ("bid", .num 11)])
    (.obj [("type", .str "live_price"), ("symbol", .str "EURUSD"),
      ("ask", .num 12)])
    "t1" "t2" "EURUSD" rfl rfl rfl rfl (by decide) (by simp)

/-- Witness for C5: a three-candle batch for `(EURUSD, M1)` ingested over a
store that already holds a different series for that key; the stored entry
is exactly the new batch. -/
theorem candleBatch_full_replacement_witness :
    (truthyOpt (getF (.obj [("type", .str "ohlcv"), ("symbol", .str "EURUSD"),
        ("timeframe", .str "M1"),
        ("candles", .arr [.num 1, .num 2, .num 3])]) "symbol") = true) ∧
      ohlcvEntry
          (processIncomingData "t1"
            (.obj [("type", .str "ohlcv"), ("symbol", .str "EURUSD"),
              ("timeframe", .str "M1"),
              ("candles", .arr [.num 1, .num 2, .num 3])])
            ⟨[], [("EURUSD", [("M1", some (.arr [.num 9]))])], []⟩).store
          "EURUSD" "M1" =
        some (some (.arr [.num 1, .num 2, .num 3])) := by
  refine ⟨rfl, ?_⟩
  exact candleBatch_full_replacement
    ⟨[], [("EURUSD", [("M1", some (.arr [.num 9]))])], []⟩
    (.obj [("type", .str "ohlcv"), ("symbol", .str "EURUSD"),
      ("timeframe", .str "M1"), ("candles", .arr [.num 1, .num 2, .num 3])])
    "t1" [.num 1, .num 2, .num 3] rfl rfl rfl rfl

/-- Witness for C8: an array-valued catalog message replaces the catalog
wholesale; a number-valued `symbols` field leaves the store untouched with
no console event. -/
theorem symbolList_wholesale_or_silent_witness :
    processIncomingData "t"
        (.obj [("type", .str "symbol_list"),
          ("symbols", .arr [.str "EURUSD", .str "GBPUSD"])])
        ⟨[], [], [.str "OLD"]⟩ =
      ⟨⟨[], [], [.str "EURUSD", .str "GBPUSD"]⟩, [.receivedSymbols], false⟩ ∧
      processIncomingData "t"
          (.obj [("type", .str "symbol_list"), ("symbols", .num 5)])
          ⟨[], [], [.str "OLD"]⟩ =
        ⟨⟨[], [], [.str "OLD"]⟩, [], false⟩ := by
  constructor
  · exact (symbolList_wholesale_or_silent ⟨[], [], [.str "OLD"]⟩
      (.obj [("type", .str "symbol_list"),
        ("symbols", .arr [.str "EURUSD", .str "GBPUSD"])]) "t" rfl).1
      [.str "EURUSD", .str "GBPUSD"] rfl
  · exact (symbolList_wholesale_or_silent ⟨[], [], [.str "OLD"]⟩
      (.obj [("type", .str "symbol_list"), ("symbols", .num 5)]) "t" rfl).2
      (by intro xs hxs; simp [getF, aGet] at hxs)

/-! ## Query-surface claims -/

/-- C6: for a stored candle series of length N and a positive limit L,
`getCandles` returns the tail of the stored sequence — the most recent
`min(L, N)` candles in their original order (`drop (N - L)`), never the
head; when N < L (e.g. L = 1000) it returns the entire stored series
rather than an error, and when N ≥ 5 a read with limit 5 returns exactly
the last 5 candles. -/
theorem getCandles_tail_selection (st : DataStore) (S T : String) (L : Int)
    (xs : List Json)
    (hentry : ohlcvEntry st (jsUpper S) T = some (some (.arr xs)))
    (hL : 0 < L) :
    getCandles st S T (some L) = .ok (.arr (xs.drop (xs.length - L.toNat))) ∧
      ((xs.length : Int) < L → getCandles st S T (some L) = .ok (.arr xs)) ∧
      (5 ≤ xs.length →
        getCandles st S T (some 5) = .ok (.arr (xs.drop (xs.length - 5)))) := by
  obtain ⟨inner, hin, htk⟩ := Option.bind_eq_some.mp hentry
  have main : ∀ (L' : Int), 0 < L' →
      getCandles st S T (some L') =
        .ok (.arr (xs.drop (xs.length - L'.toNat))) := by
    intro L' hL'
    have hne : L' ≠ 0 := by omega
    have harith :
        (if (-L' : Int) < 0 then max ((xs.length : Int) + -L') 0
          else min (-L') xs.length).toNat = xs.length - L'.toNat := by
      rw [if_pos (by omega)]
      omega
    simp only [getCandles, getCandlesRaw, hin, htk, effLimit, if_neg hne,
      falsy, jsSlice, sliceFrom, harith]
    simp
  refine ⟨main L hL, fun hlen => ?_, fun h5 => ?_⟩
  · rw [main L hL]
    have hz : xs.length - L.toNat = 0 := by omega
    rw [hz, List.drop_zero]
  · have h := main 5 (by decide)
    simpa using h

/-- Witness for C6: a stored three-candle series read with limit 2 (tail),
with limit 1000 (whole series), and with limit 5 after extending the store
is exercised through the theorem at a store whose series has length 3. -/
theorem getCandles_tail_selection_witness :
    ((0 : Int) < 2) ∧
      ohlcvEntry ⟨[], [("EURUSD", [("M1",
          some (.arr [.num 1, .num 2, .num 3]))])], []⟩ (jsUpper "eurusd") "M1" =
        some (some (.arr [.num 1, .num 2, .num 3])) ∧
      getCandles ⟨[], [("EURUSD", [("M1",
          some (.arr [.num 1, .num 2, .num 3]))])], []⟩ "eurusd" "M1" (some 2) =
        .ok (.arr [.num 2, .num 3]) ∧
      getCandles ⟨[], [("EURUSD", [("M1",
          some (.arr [.num 1, .num 2, .num 3]))])], []⟩ "eurusd" "M1" (some 1000) =
        .ok (.arr [.num 1, .num 2, .num 3]) := by
  refine ⟨by decide, rfl, ?_, ?_⟩
  · exact (getCandles_tail_selection
      ⟨[], [("EURUSD", [("M1", some (.arr [.num 1, .num 2, .num 3]))])], []⟩
      "eurusd" "M1" 2 [.num 1, .num 2, .num 3] rfl (by decide)).1
  · exact (getCandles_tail_selection
      ⟨[], [("EURUSD", [("M1", some (.arr [.num 1, .num 2, .num 3]))])], []⟩
      "eurusd" "M1" 1000 [.num 1, .num 2, .num 3] rfl (by decide)).2.1 (by decide)

/-- C9: the query-surface lookups (`getPrice`, `getCandles`,
`getTimeframes`) normalize the requested symbol to uppercase before the
store lookup, while ingestion stores the live-price key exactly as
received; consequently a live price ingested under a not-all-uppercase
symbol is stored under that exact key yet `getPrice` of that very string
returns NotFound (when the uppercase key is not otherwise populated), and
`getPrice("eurusd")` resolves identically to `getPrice("EURUSD")`. -/
theorem querySurface_uppercase_normalization (st : DataStore) (s now : String)
    (data : Json)
    (ht : getF data "type" = some (.str "live_price"))
    (hs : getF data "symbol" = some (.str s))
    (hne : s ≠ "") :
    (∀ (st' : DataStore) (T : String) (q : Option Int),
        getPrice st' s = getPriceRaw st' (jsUpper s) ∧
          getCandles st' s T q = getCandlesRaw st' (jsUpper s) T q ∧
          getTimeframes st' s = getTimeframesRaw st' (jsUpper s)) ∧
      getLivePrice (processIncomingData now data st).store s =
        some (setF data "receivedAt" (.str now)) ∧
      (jsUpper s ≠ s → aGet st.livePrices (jsUpper s) = none →
        getPrice (processIncomingData now data st).store s = none) ∧
      (∀ st' : DataStore, getPrice st' "eurusd" = getPrice st' "EURUSD") := by
  obtain ⟨fs, rfl⟩ := getF_some_obj ht
  have htr : truthyOpt (getF (.obj fs) "symbol") = true := by
    rw [hs]
    simp [truthyOpt, falsy, hne]
  have hst : (processIncomingData now (.obj fs) st).store =
      { st with livePrices := aSet st.livePrices s (setF (.obj fs) "receivedAt" (.str now)) } := by
    simp only [processIncomingData, ht, htr, if_true]
    rw [hs]
    simp [jsKeyOf, jsToStr]
  refine ⟨fun st' T q => ⟨rfl, rfl, rfl⟩, ?_, ?_, ?_⟩
  · rw [getLivePrice, hst]
    simp [aGet_aSet_self]
  · intro hup hnone
    simp only [getPrice, getPriceRaw, hst]
    rw [aGet_aSet_ne _ _ _ _ (Ne.symm hup), hnone]
  · intro st'
    have h : jsUpper "eurusd" = jsUpper "EURUSD" := rfl
    unfold getPrice
    rw [h]

/-- Witness for C9: ingesting a live price under the lowercase symbol
`"eurusd"` stores the record under that exact key, yet the price route for
the very same string answers NotFound. -/
theorem querySurface_uppercase_normalization_witness :
    (jsUpper "eurusd" ≠ "eurusd") ∧
      getLivePrice (processIncomingData "t"
          (.obj [("type", .str "live_price"), ("symbol", .str "eurusd"),
            ("bid", .num 11)]) emptyStore).store "eurusd" =
        some (.obj [("type", .str "live_price"), ("symbol", .str "eurusd"),
          ("bid", .num 11), ("receivedAt", .str "t")]) ∧
      getPrice (processIncomingData "t"
          (.obj [("type", .str "live_price"), ("symbol", .str "eurusd"),
            ("bid", .num 11)]) emptyStore).store "eurusd" = none := by
  refine ⟨by decide, ?_, ?_⟩
  · exact (querySurface_uppercase_normalization emptyStore "eurusd" "t"
      (.obj [("type", .str "live_price"), ("symbol", .str "eurusd"),
        ("bid", .num 11)]) rfl rfl (by decide)).2.1
  · exact (querySurface_uppercase_normalization emptyStore "eurusd" "t"
      (.obj [("type", .str "live_price"), ("symbol", .str "eurusd"),
        ("bid", .num 11)]) rfl rfl (by decide)).2.2.1 (by decide) rfl

/-! ## Corrected claims: C3 and C7 -/

/-- Counterexample to C3 as stated: after a valid batch for `(EURUSD, M1)`,
an ohlcv message for the same key that lacks `candles` does mutate the
store — the stored entry becomes the JS `undefined` (`none`), which differs
from the prior series, so the stored candle data is not what it was before
the message arrived. -/
theorem candlesMissing_mutates_counterexample :
    ohlcvEntry (processIncomingData "t1"
        (.obj [("type", .str "ohlcv"), ("symbol", .str "EURUSD"),
          ("timeframe", .str "M1"), ("candles", .arr [.num 1])])
        emptyStore).store "EURUSD" "M1" =
      some (some (.arr [.num 1])) ∧
      ohlcvEntry (processIncomingData "t2"
          (.obj [("type", .str "ohlcv"), ("symbol", .str "EURUSD"),
            ("timeframe", .str "M1")])
          (processIncomingData "t1"
            (.obj [("type", .str "ohlcv"), ("symbol", .str "EURUSD"),
              ("timeframe", .str "M1"), ("candles", .arr [.num 1])])
            emptyStore).store).store "EURUSD" "M1" =
        some none ∧
      (some (none : Option Json) ≠ some (some (Json.arr [Json.num 1]))) := by
  refine ⟨rfl, rfl, by simp⟩

/-- C3 amended: an ohlcv message with symbol and timeframe but no
`candles` field is not recovered without mutation — line 99 assigns the
missing field (JS `undefined`) to the (symbol, timeframe) entry, clobbering
any prior series, and line 100 then throws reading `.length`; the throw is
caught by the per-line loop (one `dataError` log), so the connection
continues and subsequent lines are processed from the clobbered store. -/
theorem candlesMissing_clobbers_entry (st : DataStore) (data : Json)
    (now : String) (parse : List Char → Option Json) (line : List Char)
    (rest : List (List Char))
    (ht : getF data "type" = some (.str "ohlcv"))
    (hs : truthyOpt (getF data "symbol") = true)
    (htf : truthyOpt (getF data "timeframe") = true)
    (hc : getF data "candles" = none) :
    processIncomingData now data st =
      ⟨{ st with ohlcvData := aSet st.ohlcvData (jsKeyOf (getF data "symbol"))
                     (aSet ((aGet st.ohlcvData (jsKeyOf (getF data "symbol"))).getD [])
                       (jsKeyOf (getF data "timeframe")) none) },
        [], true⟩ ∧
      (parse line = some data → jsTrim line ≠ [] →
        processLine parse now st line =
          ((processIncomingData now data st).store, [.dataError]) ∧
          (runLines parse now st (line :: rest)).1 =
            (runLines parse now (processIncomingData now data st).store rest).1) := by
  have hmain : processIncomingData now data st =
      ⟨{ st with ohlcvData := aSet st.ohlcvData (jsKeyOf (getF data "symbol"))
                     (aSet ((aGet st.ohlcvData (jsKeyOf (getF data "symbol"))).getD [])
                       (jsKeyOf (getF data "timeframe")) none) },
        [], true⟩ := by
    obtain ⟨fs, rfl⟩ := getF_some_obj ht
    simp only [processIncomingData, ht, hs, htf, hc, Bool.and_self, if_true]
  refine ⟨hmain, fun hp htrim => ?_⟩
  have h1 : processLine parse now st line =
      ((processIncomingData now data st).store, [.dataError]) := by
    unfold processLine
    rw [if_neg htrim, hp]
    simp [hmain]
  refine ⟨h1, ?_⟩
  have h2 : (runLines parse now st (line :: rest)).1 =
      (runLines parse now (processLine parse now st line).1 rest).1 := rfl
  rw [h2, h1]

/-- Witness for the amended C3: the missing-candles message over a store
holding a one-candle series for `(EURUSD, M1)` leaves the entry `undefined`
and is caught, the loop continuing with the clobbered store. -/
theorem candlesMissing_clobbers_entry_witness :
    (getF (.obj [("type", .str "ohlcv"), ("symbol", .str "EURUSD"),
        ("timeframe", .str "M1")]) "candles" = none) ∧
      processIncomingData "t2"
          (.obj [("type", .str "ohlcv"), ("symbol", .str "EURUSD"),
            ("timeframe", .str "M1")])
          ⟨[], [("EURUSD", [("M1", some (.arr [.num 9]))])], []⟩ =
        ⟨⟨[], [("EURUSD", [("M1", none)])], []⟩, [], true⟩ ∧
      processLine (fun _ => some (.obj [("type", .str "ohlcv"),
          ("symbol", .str "EURUSD"), ("timeframe", .str "M1")])) "t2"
          ⟨[], [("EURUSD", [("M1", some (.arr [.num 9]))])], []⟩ ['x'] =
        (⟨[], [("EURUSD", [("M1", none)])], []⟩, [.dataError]) := by
  refine ⟨rfl, ?_, ?_⟩
  · exact (candlesMissing_clobbers_entry
      ⟨[], [("EURUSD", [("M1", some (.arr [.num 9]))])], []⟩
      (.obj [("type", .str "ohlcv"), ("symbol", .str "EURUSD"),
        ("timeframe", .str "M1")]) "t2"
      (fun _ => some (.obj [("type", .str "ohlcv"), ("symbol", .str "EURUSD"),
        ("timeframe", .str "M1")])) ['x'] []
      rfl rfl rfl rfl).1
  · exact ((candlesMissing_clobbers_entry
      ⟨[], [("EURUSD", [("M1", some (.arr [.num 9]))])], []⟩
      (.obj [("type", .str "ohlcv"), ("symbol", .str "EURUSD"),
        ("timeframe", .str "M1")]) "t2"
      (fun _ => some (.obj [("type", .str "ohlcv"), ("symbol", .str "EURUSD"),
        ("timeframe", .str "M1")])) ['x'] []
      rfl rfl rfl rfl).2 rfl (by decide)).1

/-- Counterexample to C7 as stated: for a candle batch, no ingestion
timestamp reaches the store — the stored series value is the bare candles
array exactly as it arrived, and that array has no `receivedAt` at the
series level. -/
theorem candleStamp_counterexample :
    ohlcvEntry (processIncomingData "2024-01-01T00:00:00.000Z"
        (.obj [("type", .str "ohlcv"), ("symbol", .str "EURUSD"),
          ("timeframe", .str "M1"), ("candles", .arr [.num 1])])
        emptyStore).store "EURUSD" "M1" =
      some (some (.arr [.num 1])) ∧
      getF (.arr [.num 1]) "receivedAt" = none :=
  ⟨rfl, rfl⟩

/-- C7 amended: an accepted live-price update is stamped before being
applied — the stored LivePrice record is the message with `receivedAt` set
to the ingestion timestamp; for candle batches the timestamp is assigned
only to the transient message object, and the stored series value is the
message's `candles` field verbatim, carrying no series-level
`receivedAt`. -/
theorem receivedAt_stamping (st : DataStore) (data : Json) (now : String) :
    (getF data "type" = some (.str "live_price") →
      truthyOpt (getF data "symbol") = true →
      getLivePrice (processIncomingData now data st).store
          (jsKeyOf (getF data "symbol")) =
        some (setF data "receivedAt" (.str now)) ∧
        getF (setF data "receivedAt" (.str now)) "receivedAt" =
          some (.str now)) ∧
      (getF data "type" = some (.str "ohlcv") →
        truthyOpt (getF data "symbol") = true →
        truthyOpt (getF data "timeframe") = true →
        ohlcvEntry (processIncomingData now data st).store
            (jsKeyOf (getF data "symbol")) (jsKeyOf (getF data "timeframe")) =
          some (getF data "candles")) := by
  constructor
  · intro ht hs
    obtain ⟨fs, rfl⟩ := getF_some_obj ht
    constructor
    · simp only [processIncomingData, ht, hs, if_true, getLivePrice]
      simp [aGet_aSet_self]
    · simp [setF, getF, aGet_aSet_self]
  · intro ht hs htf
    obtain ⟨fs, rfl⟩ := getF_some_obj ht
    simp only [processIncomingData, ht, hs, htf, Bool.and_self, if_true]
    split <;> simp [ohlcvEntry, aGet_aSet_self]

/-- Witness for the amended C7: a live-price record is stored with
`receivedAt := "t"`, while the candle batch's stored series is the bare
input array. -/
theorem receivedAt_stamping_witness :
    getLivePrice (processIncomingData "t"
        (.obj [("type", .str "live_price"), ("symbol", .str "EURUSD"),
          ("bid", .num 11)]) emptyStore).store "EURUSD" =
      some (.obj [("type", .str "live_price"), ("symbol", .str "EURUSD"),
        ("bid", .num 11), ("receivedAt", .str "t")]) ∧
      ohlcvEntry (processIncomingData "t"
          (.obj [("type", .str "ohlcv"), ("symbol", .str "EURUSD"),
            ("timeframe", .str "M1"), ("candles", .arr [.num 1])])
          emptyStore).store "EURUSD" "M1" =
        some (some (.arr [.num 1])) := by
  constructor
  · exact ((receivedAt_stamping emptyStore
      (.obj [("type", .str "live_price"), ("symbol", .str "EURUSD"),
        ("bid", .num 11)]) "t").1 rfl rfl).1
  · exact (receivedAt_stamping emptyStore
      (.obj [("type", .str "ohlcv"), ("symbol", .str "EURUSD"),
        ("timeframe", .str "M1"), ("candles", .arr [.num 1])]) "t").2
      rfl rfl rfl
